import Mathlib

/-!
# Verification development for the Mailchimp → Ometria importer

Shallow embedding of `internal/importer/member.go`, `internal/importer/importer.go`
and `internal/statemgr/redis.go`.

Conventions of the embedding
* Go `string` values are Lean `String`s (valid UTF-8 text, as produced by the JSON decoder).
* Go `error` values are `Option GoError`: `none` is `nil`, `some e` carries the message.
* Go `int` values are `Int`; the only arithmetic performed is `/ 900`, `+ 1` and `* 900` on a
  decoded `total_items`, which stays inside the 64-bit range.
* The outside world (HTTP servers, Redis, the clock) is an explicit `World` record of oracles.
-/

namespace Importer

/-! ## Go standard library pieces used by `member.go` -/

/-- Go `unicode.IsSpace`: the code points with the Unicode White_Space property. -/
def isSpace (c : Char) : Bool :=
  let n := c.toNat
  (9 ≤ n && n ≤ 13) || n == 32 || n == 133 || n == 160 || n == 5760 ||
  (8192 ≤ n && n ≤ 8202) || n == 8232 || n == 8233 || n == 8239 || n == 8287 || n == 12288

/-- Cut a character list at every character satisfying `p`; `k` separators give `k + 1` pieces
(possibly empty ones), as Go's `strings.Split` does for a one-character separator. -/
def splitBy (p : Char → Bool) : List Char → List (List Char)
  | [] => [[]]
  | c :: cs =>
    if p c then [] :: splitBy p cs
    else
      match splitBy p cs with
      | [] => [[c]]
      | piece :: rest => (c :: piece) :: rest

/-- Go `strings.TrimSpace` on a character list: leading and trailing white space removed. -/
def trimSpaceChars (cs : List Char) : List Char :=
  ((cs.dropWhile isSpace).reverse.dropWhile isSpace).reverse

/-- Go `strings.TrimSpace`. -/
def TrimSpace (s : String) : String := ⟨trimSpaceChars s.data⟩

/-- Go `strings.Split(s, sep)` for a separator of one character (the importer only ever
passes `" "`). -/
def Split (s : String) (sep : Char) : List String :=
  (splitBy (fun c => c == sep) s.data).map String.mk

/-- Go `len(s)` decides emptiness here; the importer only compares it with zero. -/
def len (s : String) : Nat := s.data.length

/-! ## `member.go` -/

/-- Go `MergeFields`. -/
structure MergeFields where
  FirstName : String
  LastName : String
deriving DecidableEq, Repr

/-- Go `Member`, the Mailchimp-side record. -/
structure Member where
  Id : String
  EmailAddress : String
  FullName : String
  Status : String
  MergeFields : MergeFields
deriving DecidableEq, Repr

/-- Go `MembersResults`, one decoded page. -/
structure MembersResults where
  Members : List Member
  TotalItems : Int
deriving DecidableEq, Repr

/-- Go `ometriaMember`, the Ometria-side record whose JSON encoding `MarshalJSON` returns. -/
structure ometriaMember where
  Id : String
  FirstName : String
  LastName : String
  Email : String
  Status : String
deriving DecidableEq, Repr

/-- Go `Member.MarshalJSON`, up to the final `json.Marshal` of the five-field record. -/
def MarshalJSON (member : Member) : ometriaMember :=
  let firstName := member.MergeFields.FirstName
  let lastName := member.MergeFields.LastName
  let fullName := member.FullName
  let firstName :=
    if len (TrimSpace firstName) == 0 && len (TrimSpace fullName) > 0 then
      let parts := Split fullName ' '
      if parts.length ≥ 1 then parts.headD firstName else firstName
    else firstName
  let lastName :=
    if len (TrimSpace lastName) == 0 && len (TrimSpace fullName) > 0 then
      let parts := Split fullName ' '
      if parts.length > 1 then parts.getLastD lastName else lastName
    else lastName
  { Id := member.Id
    FirstName := firstName
    LastName := lastName
    Email := member.EmailAddress
    Status := member.Status }

/-- A name is blank when trimming white space leaves nothing. -/
def blank (s : String) : Bool := len (TrimSpace s) == 0

/-- Whitespace-separated tokens of a string, in the words of the specification: the maximal
runs of non-white-space characters. -/
def spec_tokens (s : String) : List String :=
  ((splitBy isSpace s.data).filter (fun piece => !piece.isEmpty)).map String.mk

/-! ## Errors, the clock and the outside world -/

/-- A Go `error` value that is not `nil`, identified by its message. -/
abbrev GoError := String

/-- The function `Wrap` of `github.com/pkg/errors`: it annotates a non-nil error with a message
and, as that library documents, returns `nil` when the error it is given is `nil`. -/
def Wrap (err : Option GoError) (message : String) : Option GoError :=
  match err with
  | none => none
  | some e => some (message ++ ": " ++ e)

/-- An instant of the wall clock (`time.Time`), in seconds. -/
abbrev Time := Nat

/-- The Redis keyspace as the importer sees it: list id ↦ stored timestamp text. -/
abbrev Store := String → Option String

/-- Arguments of one `getMembersPage` call. -/
structure PageRequest where
  listId : String
  offset : Int
  count : Int
  sinceLastChanged : String
deriving DecidableEq, Repr

/-- What the HTTP exchange inside `getMembersPage` can do, stage by stage. -/
inductive GetOutcome where
  | newRequestError (e : GoError)
  | doError (e : GoError)
  | readError (e : GoError)
  | unmarshalError (e : GoError)
  | decoded (pageResult : MembersResults)
deriving DecidableEq, Repr

/-- What the HTTP exchange inside `saveMembers` can do, stage by stage. -/
inductive PostOutcome where
  | newRequestError (e : GoError)
  | doError (e : GoError)
  | response (StatusCode : Int)
deriving DecidableEq, Repr

/-- The collaborators of one `SyncList` cycle, as oracles. -/
structure World where
  /-- Rendering `t.Format(time.RFC3339)`. -/
  RFC3339 : Time → String
  /-- Reading of `time.Now()` at the top of `SyncList`. -/
  startClock : Time
  /-- Reading of `time.Now()` inside `Redis.SetCompletedRun`. -/
  commitClock : Time
  /-- Failure of the Redis `GET` other than a missing key, if any. -/
  redisGet : Option GoError
  /-- Failure of the Redis `SET`, if any. -/
  redisSet : Option GoError
  /-- The Mailchimp answer to each page request. -/
  mailchimp : PageRequest → GetOutcome
  /-- The Ometria answer to the push of the page fetched at a given offset. -/
  ometria : Int → List ometriaMember → PostOutcome

/-! ## `statemgr/redis.go` -/

set_option linter.unusedVariables false in
/-- Go `Redis.SetCompletedRun`: `client.Set(ctx, listId, time.Now().Format(time.RFC3339), 0)`.
A failed `SET` leaves the keyspace as it was. -/
def Redis.SetCompletedRun (w : World) (store : Store) (timeStamp : Time) (listId : String) :
    Store × Option GoError :=
  match w.redisSet with
  | some e => (store, some e)
  | none => (fun key => if key = listId then some (w.RFC3339 w.commitClock) else store key, none)

/-- Go `Redis.GetLastRunTimestamp`: a missing key (`redis.Nil`) reads as the empty string. -/
def Redis.GetLastRunTimestamp (w : World) (store : Store) (listId : String) :
    String × Option GoError :=
  match w.redisGet with
  | some e => ("", some e)
  | none =>
    match store listId with
    | none => ("", none)
    | some val => (val, none)

/-! ## `importer.go` -/

/-- Go `membersResultsWrapper`: both fields are nilable. -/
structure membersResultsWrapper where
  MembersResults : Option MembersResults
  Error : Option GoError
deriving DecidableEq, Repr

/-- Go `Importer.getMembersPage`: `(nil, wrapped error)` or `(&pageResult, nil)`. The response
status is not inspected. -/
def getMembersPage (w : World) (listId : String) (offset : Int) (count : Int)
    (sinceLastChanged : String) : Option MembersResults × Option GoError :=
  match w.mailchimp ⟨listId, offset, count, sinceLastChanged⟩ with
  | .newRequestError e => (none, Wrap (some e) "unable to create the http request")
  | .doError e => (none, Wrap (some e) "unable to send the http request")
  | .readError e => (none, Wrap (some e) "unable to read the response body")
  | .unmarshalError e => (none, Wrap (some e) "unable to unmarshal the response data into struct")
  | .decoded pageResult => (some pageResult, none)

/-- Go `Importer.saveMembers`; `post` is the destination's answer to this very request, whose
body is the JSON array of the members, each encoded by `MarshalJSON`. In the status branch the
variable `err` still holds the `nil` returned by `http.DefaultClient.Do`. -/
def saveMembers (post : List ometriaMember → PostOutcome) (members : List Member) :
    Option GoError :=
  let jsonMembers := members.map MarshalJSON
  match post jsonMembers with
  | .newRequestError e => Wrap (some e) "unable to create the http request"
  | .doError e => Wrap (some e) "unable to send the http request"
  | .response StatusCode =>
    let err : Option GoError := none
    if StatusCode ≠ 201 then Wrap err "post response was not successful"
    else none

/-- A call made by the goroutine running `SyncList`, with its arguments. -/
inductive Call where
  | GetLastRunTimestamp (listId : String)
  | getMembersPage (req : PageRequest)
  | saveMembers (members : List Member)
  | SetCompletedRun (timeStamp : Time) (listId : String)
deriving DecidableEq, Repr

/-- How a `SyncList` call ends. -/
inductive Outcome where
  | returned (err : Option GoError)
  | nilDereference
deriving DecidableEq, Repr

/-- Everything observable about one `SyncList` cycle. -/
structure Cycle where
  /-- The return value. -/
  ret : Outcome
  /-- Calls made by the `SyncList` goroutine itself, in program order. -/
  calls : List Call
  /-- Page requests handed to fan-out goroutines (`go func(offset int)`), in spawn order. -/
  spawned : List PageRequest
  /-- Number of values received from `pageResultsChan`. -/
  consumed : Nat
  /-- The Redis keyspace when `SyncList` returns. -/
  store : Store

/-- The constant `concurrencyLimit` of `SyncList`. -/
def concurrencyLimit : Nat := 9

/-- The constant `count` of `SyncList`, the page size. -/
def count : Int := 900

/-- The `numberOfPages` computed by `SyncList`; Go's `/` truncates. -/
def numberOfPages (TotalItems : Int) : Int := Int.tdiv TotalItems count + 1

/-- The loop `for i := 1; i < numberOfPages; i++` of `SyncList`: the values taken by `i`. -/
def fanOutIndices (numberOfPages : Int) : List Nat :=
  List.range' 1 (numberOfPages.toNat - 1)

/-- Body of one fan-out goroutine between acquiring and releasing its slot: fetch, push on
success, and the wrapper it sends through `pageResultsChan`. -/
def worker (w : World) (listId : String) (offset : Int) (sinceLastChanged : String) :
    membersResultsWrapper :=
  match getMembersPage w listId offset count sinceLastChanged with
  | (pageResult, some e) => { MembersResults := pageResult, Error := some e }
  | (none, none) => { MembersResults := none, Error := none }
  | (some pageResult, none) =>
    { MembersResults := some pageResult
      Error := saveMembers (w.ometria offset) pageResult.Members }

/-- The drain loop `for { resultsWrapper, ok := <-pageResultsChan ... }` of `SyncList`, run on
the values the channel delivers, in arrival order, until it is closed. -/
def drain (w : World) (listId : String) (nowTimestamp : Time) (TotalItems : Int) :
    Int → Store → List membersResultsWrapper → Cycle
  | _, store, [] => ⟨.returned none, [], [], 0, store⟩
  | numberProcessed, store, resultsWrapper :: later =>
    match resultsWrapper.Error with
    | some e => ⟨.returned (Wrap (some e) "unexpeceted error 😕"), [], [], 1, store⟩
    | none =>
      match resultsWrapper.MembersResults with
      | none => ⟨.nilDereference, [], [], 1, store⟩
      | some pageResult =>
        let numberProcessed := numberProcessed + pageResult.Members.length
        if numberProcessed ≥ TotalItems then
          match Redis.SetCompletedRun w store nowTimestamp listId with
          | (store, some e) =>
            ⟨.returned (Wrap (some e) "unable to save the last run timestamp"),
              [.SetCompletedRun nowTimestamp listId], [], 1, store⟩
          | (store, none) =>
            ⟨.returned none, [.SetCompletedRun nowTimestamp listId], [], 1, store⟩
        else
          let c := drain w listId nowTimestamp TotalItems numberProcessed store later
          { c with consumed := c.consumed + 1 }

/-- Go `Importer.SyncList`. `store` is the Redis keyspace at entry; `order` lists the loop
indices `i` of the fan-out goroutines in the order in which their results are received from
`pageResultsChan` (goroutine scheduling decides it). -/
def SyncList (w : World) (store : Store) (order : List Nat) (listId : String) : Cycle :=
  let nowTimestamp := w.startClock
  match Redis.GetLastRunTimestamp w store listId with
  | (_, some e) =>
    ⟨.returned (Wrap (some e) "unable to get the last run timestamp from redis (check connectivity)"),
      [.GetLastRunTimestamp listId], [], 0, store⟩
  | (sinceLastChanged, none) =>
    let calls := [Call.GetLastRunTimestamp listId,
      Call.getMembersPage ⟨listId, 0, count, sinceLastChanged⟩]
    match getMembersPage w listId 0 count sinceLastChanged with
    | (_, some e) =>
      ⟨.returned (Wrap (some e) "unable to get the first page of results"), calls, [], 0, store⟩
    | (none, none) => ⟨.nilDereference, calls, [], 0, store⟩
    | (some page1, none) =>
      if page1.TotalItems = 0 then
        match Redis.SetCompletedRun w store nowTimestamp listId with
        | (store, some e) =>
          ⟨.returned (Wrap (some e) "unable to save the last run timestamp"),
            calls ++ [.SetCompletedRun nowTimestamp listId], [], 0, store⟩
        | (store, none) =>
          ⟨.returned none, calls ++ [.SetCompletedRun nowTimestamp listId], [], 0, store⟩
      else
        let numberOfPages := numberOfPages page1.TotalItems
        let calls := calls ++ [.saveMembers page1.Members]
        match saveMembers (w.ometria 0) page1.Members with
        | some e =>
          ⟨.returned (Wrap (some e) "unable to save the first page of results"),
            calls, [], 0, store⟩
        | none =>
          if numberOfPages = 1 then
            match Redis.SetCompletedRun w store nowTimestamp listId with
            | (store, some e) =>
              ⟨.returned (Wrap (some e) "unable to save the last run timestamp"),
                calls ++ [.SetCompletedRun nowTimestamp listId], [], 0, store⟩
            | (store, none) =>
              ⟨.returned none, calls ++ [.SetCompletedRun nowTimestamp listId], [], 0, store⟩
          else
            let spawned := (fanOutIndices numberOfPages).map
              (fun (i : Nat) => (⟨listId, (i : Int) * count, count, sinceLastChanged⟩ : PageRequest))
            let arrivals := order.map (fun (i : Nat) => worker w listId ((i : Int) * count) sinceLastChanged)
            let numberProcessed : Int := page1.Members.length
            let c := drain w listId nowTimestamp page1.TotalItems numberProcessed store arrivals
            { c with calls := calls ++ c.calls, spawned := spawned }

/-- Page requests of a cycle: those made by the `SyncList` goroutine followed by those handed
to fan-out goroutines. -/
def pageRequests (c : Cycle) : List PageRequest :=
  c.calls.filterMap (fun call => match call with
    | .getMembersPage req => some req
    | _ => none) ++ c.spawned

/-- Number of `SetCompletedRun` calls of a cycle. -/
def commits (c : Cycle) : Nat :=
  c.calls.countP (fun call => match call with
    | .SetCompletedRun _ _ => true
    | _ => false)

/-- Number of `saveMembers` calls made by the `SyncList` goroutine. -/
def pushes (c : Cycle) : Nat :=
  c.calls.countP (fun call => match call with
    | .saveMembers _ => true
    | _ => false)

/-! ## The fan-out of `SyncList` as a transition system

Each goroutine started by `go func(offset int)` sends into `concurrencyLimitChan` (capacity
`concurrencyLimit`), fetches and pushes its page, sends its wrapper through the unbuffered
`pageResultsChan`, and on return runs the deferred receive from `concurrencyLimitChan`. -/

/-- Where a fan-out goroutine stands. -/
inductive Phase where
  /-- Not yet past `concurrencyLimitChan <- struct{}{}`. -/
  | waiting
  /-- Inside `getMembersPage` / `saveMembers`. -/
  | running
  /-- Blocked on `pageResultsChan <- ...`. -/
  | reporting
  /-- Its wrapper was received; the deferred function has not run yet. -/
  | delivered
  /-- The deferred `<-concurrencyLimitChan; wg.Done()` has run. -/
  | done
deriving DecidableEq, Repr

/-- State of the fan-out: the phase of each goroutine and the number of values buffered in
`concurrencyLimitChan`. -/
structure FanOut where
  workers : List Phase
  slots : Nat
deriving DecidableEq, Repr

/-- One scheduling step of goroutine `i`. A `deliver` stands for the drain loop receiving the
wrapper; it is offered whenever the goroutine is reporting, so a drain loop that has stopped
receiving only removes behaviours. -/
inductive Action where
  | acquire (i : Nat)
  | finish (i : Nat)
  | deliver (i : Nat)
  | release (i : Nat)
deriving DecidableEq, Repr

/-- The fan-out right after the spawning loop: every goroutine waits, the channel is empty. -/
def FanOut.start (n : Nat) : FanOut := ⟨List.replicate n .waiting, 0⟩

/-- Effect of one action, `none` when the goroutine cannot take it: a send into the full
buffered channel blocks, and so does a receive from the empty one. -/
def FanOut.step (s : FanOut) : Action → Option FanOut
  | .acquire i =>
    if s.workers[i]? = some .waiting ∧ s.slots < concurrencyLimit then
      some ⟨s.workers.set i .running, s.slots + 1⟩
    else none
  | .finish i =>
    if s.workers[i]? = some .running then some ⟨s.workers.set i .reporting, s.slots⟩
    else none
  | .deliver i =>
    if s.workers[i]? = some .reporting then some ⟨s.workers.set i .delivered, s.slots⟩
    else none
  | .release i =>
    if s.workers[i]? = some .delivered ∧ 0 < s.slots then
      some ⟨s.workers.set i .done, s.slots - 1⟩
    else none

/-- Run a schedule; `none` when some action of it is not enabled. -/
def FanOut.run : FanOut → List Action → Option FanOut
  | s, [] => some s
  | s, a :: later =>
    match s.step a with
    | none => none
    | some s' => s'.run later

/-- A goroutine holds a slot from its send into `concurrencyLimitChan` until its deferred
receive. -/
def Phase.holdsSlot : Phase → Bool
  | .running => true
  | .reporting => true
  | .delivered => true
  | _ => false

/-- Number of goroutines holding a slot. -/
def FanOut.holders (s : FanOut) : Nat := s.workers.countP Phase.holdsSlot

/-- Number of goroutines with a page fetch or push in flight. -/
def FanOut.inFlight (s : FanOut) : Nat := s.workers.countP (fun ph => ph == .running)

/-! ## Vocabulary of the statements -/

/-- Number of records a received wrapper adds to `numberProcessed`
(`len(resultsWrapper.MembersResults.Members)`); zero for a wrapper without a page. -/
def received (resultsWrapper : membersResultsWrapper) : Int :=
  match resultsWrapper.MembersResults with
  | some pageResult => pageResult.Members.length
  | none => 0

/-- The running count: `numberProcessed` plus the records of the given results. -/
def runningCount (numberProcessed : Int) (results : List membersResultsWrapper) : Int :=
  numberProcessed + (results.map received).sum

/-- A failure that `SyncList` gets to see: the watermark read fails, or the page-0 fetch
fails, or the page-0 push returns an error, or the wrapper of a failed fan-out page is
received while the records counted so far (page 0 and the results received before it) are
fewer than `total_items`. -/
def FailureObserved (w : World) (store : Store) (order : List Nat) (listId : String) : Prop :=
  w.redisGet ≠ none ∨
  (getMembersPage w listId 0 count (Redis.GetLastRunTimestamp w store listId).1).2 ≠ none ∨
  ∃ page1 : MembersResults,
    w.mailchimp ⟨listId, 0, count, (Redis.GetLastRunTimestamp w store listId).1⟩ =
      .decoded page1 ∧
    page1.TotalItems ≠ 0 ∧
    (saveMembers (w.ometria 0) page1.Members ≠ none ∨
      (numberOfPages page1.TotalItems ≠ 1 ∧
        ∃ (before : List Nat) (i : Nat) (after : List Nat),
          order = before ++ i :: after ∧
          (worker w listId ((i : Int) * count)
            (Redis.GetLastRunTimestamp w store listId).1).Error ≠ none ∧
          runningCount page1.Members.length
            (before.map (fun (j : Nat) => worker w listId ((j : Int) * count)
              (Redis.GetLastRunTimestamp w store listId).1)) < page1.TotalItems))

/-! ## Concrete worlds used to run the embedding -/

/-- Two-digit decimal rendering of a number below 100. -/
def twoDigits (n : Nat) : String :=
  String.mk [Char.ofNat (48 + n / 10 % 10), Char.ofNat (48 + n % 10)]

/-- The layout `time.RFC3339` for instants of the first hour of 1 January 1970, UTC. -/
def firstHourRFC3339 (t : Time) : String :=
  "1970-01-01T00:" ++ twoDigits (t / 60) ++ ":" ++ twoDigits (t % 60) ++ "Z"

/-- A member with both merge-field names filled in. -/
def someMember : Member :=
  ⟨"62eeb292278cc15f5817cb78f7790b08", "ada@example.org", "Ada Lovelace", "subscribed",
    ⟨"Ada", "Lovelace"⟩⟩

/-- A world with a working Redis, whose cycle starts at second 100 and whose commit, if any,
happens at second 107; `pages` answers page requests by offset and `answers` pushes by
offset. -/
def worldOf (pages : Int → GetOutcome) (answers : Int → PostOutcome) : World :=
  { RFC3339 := firstHourRFC3339
    startClock := 100
    commitClock := 107
    redisGet := none
    redisSet := none
    mailchimp := fun req => pages req.offset
    ometria := fun offset _ => answers offset }

/-- An empty Redis keyspace. -/
def emptyStore : Store := fun _ => none

/-- A list without changes: page 0 reports no item. -/
def quietList : World :=
  worldOf (fun _ => .decoded ⟨[], 0⟩) (fun _ => .response 201)

/-- A list of exactly 900 members: page 0 is full, the page at offset 900 is empty. -/
def fullPageList : World :=
  worldOf (fun offset => if offset = 0 then .decoded ⟨List.replicate 900 someMember, 900⟩
    else .decoded ⟨[], 900⟩) (fun _ => .response 201)

/-- A list of 1800 members whose two full pages are served and pushed, while the request for
the trailing page at offset 1800 fails on the network. -/
def trailingFailureList : World :=
  worldOf (fun offset => if offset = 1800 then .doError "connection reset"
    else .decoded ⟨List.replicate 900 someMember, 1800⟩) (fun _ => .response 201)

/-- A list of 1000 members whose page-0 push cannot be sent. -/
def unreachableOmetria : World :=
  worldOf (fun offset => if offset = 0 then .decoded ⟨List.replicate 900 someMember, 1000⟩
    else .decoded ⟨List.replicate 100 someMember, 1000⟩) (fun _ => .doError "connection refused")

/-- A list of 1000 members served in two pages, every push answered 201. -/
def twoPageList : World :=
  worldOf (fun offset => if offset = 0 then .decoded ⟨List.replicate 900 someMember, 1000⟩
    else .decoded ⟨List.replicate 100 someMember, 1000⟩) (fun _ => .response 201)

/-! ## Theorems -/

/-- C5: `Member.MarshalJSON` passes `Id`, `EmailAddress` and `Status` through for every
member, and when both merge-field names are non-blank the record is exactly
`(Id, MergeFields.FirstName, MergeFields.LastName, EmailAddress, Status)`, whatever
`FullName` is. -/
theorem MarshalJSON_verbatim (member : Member) :
    ((MarshalJSON member).Id = member.Id ∧
      (MarshalJSON member).Email = member.EmailAddress ∧
      (MarshalJSON member).Status = member.Status) ∧
    (blank member.MergeFields.FirstName = false → blank member.MergeFields.LastName = false →
      ∀ fullName : String,
        MarshalJSON { member with FullName := fullName } =
          { Id := member.Id
            FirstName := member.MergeFields.FirstName
            LastName := member.MergeFields.LastName
            Email := member.EmailAddress
            Status := member.Status }) := by
  refine ⟨⟨rfl, rfl, rfl⟩, ?_⟩
  intro hf hl fullName
  simp only [blank] at hf hl
  simp [MarshalJSON, hf, hl]

/-- Witness of C5 at a member with merge names `Ada` / `Lovelace` and an unrelated full
name. -/
theorem MarshalJSON_verbatim_witness :
    MarshalJSON ⟨"7", "ada@example.org", "Someone Else", "subscribed", ⟨"Ada", "Lovelace"⟩⟩ =
      ⟨"7", "Ada", "Lovelace", "ada@example.org", "subscribed"⟩ :=
  (MarshalJSON_verbatim ⟨"7", "ada@example.org", "", "subscribed", ⟨"Ada", "Lovelace"⟩⟩).2
    (by decide) (by decide) "Someone Else"

theorem saveMembers_of_response (post : List ometriaMember → PostOutcome)
    (members : List Member) (StatusCode : Int)
    (h : post (members.map MarshalJSON) = .response StatusCode) :
    saveMembers post members = none := by
  unfold saveMembers
  simp only [h]
  by_cases h201 : StatusCode = 201 <;> simp [h201, Wrap]

/-- C2: when the request is sent and answered, `saveMembers` returns `nil` for every status
code, 201 or not (200 and 500 included): in the non-201 branch it wraps the `nil` error left
by `http.DefaultClient.Do`, and `Wrap` of `nil` is `nil`. -/
theorem saveMembers_nil_for_every_status :
    (∀ (StatusCode : Int) (members : List Member),
      saveMembers (fun _ => PostOutcome.response StatusCode) members = none) ∧
    saveMembers (fun _ => PostOutcome.response 200) [someMember] = none ∧
    saveMembers (fun _ => PostOutcome.response 500) [someMember] = none :=
  ⟨fun StatusCode members => saveMembers_of_response _ members StatusCode rfl,
    saveMembers_of_response _ _ 200 rfl, saveMembers_of_response _ _ 500 rfl⟩

/-- C3: `Redis.SetCompletedRun` stores the rendering of the clock read inside it, whatever
`timeStamp` it is given: two calls that differ only in `timeStamp` store the same text. In a
cycle started at 00:01:40 whose commit runs at 00:01:47, the stored watermark is 00:01:47. -/
theorem SetCompletedRun_ignores_timeStamp :
    (∀ (w : World) (store : Store) (timeStamp other : Time) (listId : String),
      Redis.SetCompletedRun w store timeStamp listId =
        Redis.SetCompletedRun w store other listId) ∧
    (∀ (w : World) (store : Store) (timeStamp : Time) (listId : String),
      (Redis.SetCompletedRun { w with redisSet := none } store timeStamp listId).1 listId =
        some (w.RFC3339 w.commitClock)) ∧
    quietList.RFC3339 quietList.startClock = "1970-01-01T00:01:40Z" ∧
    (SyncList quietList emptyStore [] "list").calls.getLast? =
      some (.SetCompletedRun quietList.startClock "list") ∧
    (SyncList quietList emptyStore [] "list").store "list" = some "1970-01-01T00:01:47Z" := by
  refine ⟨fun _ _ _ _ _ => rfl, ?_, by decide, by decide, by decide⟩
  intro w store timeStamp listId
  simp [Redis.SetCompletedRun]

/-- C7: when the watermark read and the page-0 fetch succeed and page 0 reports
`total_items == 0`, `SyncList` makes exactly three calls — the watermark read, the page-0
fetch and one `SetCompletedRun` with the cycle start time — pushes nothing, spawns no
goroutine, and returns `nil` exactly when the `SET` succeeded, its wrapped error otherwise. -/
theorem SyncList_zero_items (w : World) (store : Store) (order : List Nat) (listId : String)
    (page1 : MembersResults)
    (hget : w.redisGet = none)
    (hpage : w.mailchimp ⟨listId, 0, count, (Redis.GetLastRunTimestamp w store listId).1⟩ =
      .decoded page1)
    (hzero : page1.TotalItems = 0) :
    (SyncList w store order listId).calls =
      [.GetLastRunTimestamp listId,
       .getMembersPage ⟨listId, 0, count, (Redis.GetLastRunTimestamp w store listId).1⟩,
       .SetCompletedRun w.startClock listId] ∧
    pushes (SyncList w store order listId) = 0 ∧
    commits (SyncList w store order listId) = 1 ∧
    (SyncList w store order listId).spawned = [] ∧
    (SyncList w store order listId).consumed = 0 ∧
    (SyncList w store order listId).ret =
      .returned (Wrap (Redis.SetCompletedRun w store w.startClock listId).2
        "unable to save the last run timestamp") ∧
    ((SyncList w store order listId).ret = .returned none ↔
      (Redis.SetCompletedRun w store w.startClock listId).2 = none) := by
  have hsince : Redis.GetLastRunTimestamp w store listId =
      ((Redis.GetLastRunTimestamp w store listId).1, none) := by
    unfold Redis.GetLastRunTimestamp
    rw [hget]
    cases store listId <;> rfl
  have hfetch : getMembersPage w listId 0 count (Redis.GetLastRunTimestamp w store listId).1 =
      (some page1, none) := by
    unfold getMembersPage
    rw [hpage]
  unfold SyncList
  rw [hsince]
  simp only [hfetch, hzero, if_true]
  cases hs : w.redisSet with
  | none => simp [Redis.SetCompletedRun, hs, pushes, commits, Wrap]
  | some e => simp [Redis.SetCompletedRun, hs, pushes, commits, Wrap]

/-- Witness of C7 on a list without changes. -/
theorem SyncList_zero_items_witness :
    (SyncList quietList emptyStore [] "list").calls =
      [.GetLastRunTimestamp "list", .getMembersPage ⟨"list", 0, 900, ""⟩,
       .SetCompletedRun 100 "list"] ∧
    (SyncList quietList emptyStore [] "list").ret = .returned none :=
  have h := SyncList_zero_items quietList emptyStore [] "list" ⟨[], 0⟩ rfl rfl rfl
  ⟨h.1, h.2.2.2.2.2.1⟩

/-! ### Shape of a cycle, path by path -/

theorem GetLastRunTimestamp_ok (w : World) (store : Store) (listId : String)
    (hget : w.redisGet = none) :
    Redis.GetLastRunTimestamp w store listId =
      ((Redis.GetLastRunTimestamp w store listId).1, none) := by
  unfold Redis.GetLastRunTimestamp
  rw [hget]
  cases store listId <;> rfl

theorem getMembersPage_decoded (w : World) (listId : String) (offset cnt : Int)
    (since : String) (pageResult : MembersResults)
    (hpage : w.mailchimp ⟨listId, offset, cnt, since⟩ = .decoded pageResult) :
    getMembersPage w listId offset cnt since = (some pageResult, none) := by
  unfold getMembersPage
  rw [hpage]

theorem numberOfPages_of_nonneg (T : Int) (h : 0 ≤ T) : numberOfPages T = T / 900 + 1 := by
  unfold numberOfPages count
  rw [Int.tdiv_eq_ediv h (by norm_num)]

theorem drain_spawned (w : World) (listId : String) (now : Time) (T : Int)
    (arrivals : List membersResultsWrapper) :
    ∀ (np : Int) (store : Store), (drain w listId now T np store arrivals).spawned = [] := by
  induction arrivals with
  | nil => intro np store; rfl
  | cons x later ih =>
    intro np store
    unfold drain
    cases hE : x.Error with
    | some e => rfl
    | none =>
      cases hM : x.MembersResults with
      | none => rfl
      | some r =>
        by_cases hc : np + (r.Members.length : Int) ≥ T
        · cases hs : w.redisSet <;> simp [hc, Redis.SetCompletedRun, hs]
        · simp [hc, ih]

theorem drain_calls (w : World) (listId : String) (now : Time) (T : Int)
    (arrivals : List membersResultsWrapper) :
    ∀ (np : Int) (store : Store),
      (drain w listId now T np store arrivals).calls = [] ∨
      (drain w listId now T np store arrivals).calls = [.SetCompletedRun now listId] := by
  induction arrivals with
  | nil => intro np store; exact Or.inl rfl
  | cons x later ih =>
    intro np store
    unfold drain
    cases hE : x.Error with
    | some e => exact Or.inl rfl
    | none =>
      cases hM : x.MembersResults with
      | none => exact Or.inl rfl
      | some r =>
        by_cases hc : np + (r.Members.length : Int) ≥ T
        · cases hs : w.redisSet <;> simp [hc, Redis.SetCompletedRun, hs]
        · simpa [hc] using ih _ store

/-- The cycle when the page-0 push returns an error. -/
theorem SyncList_push_error (w : World) (store : Store) (order : List Nat) (listId : String)
    (page1 : MembersResults) (e : GoError)
    (hget : w.redisGet = none)
    (hpage : w.mailchimp ⟨listId, 0, count, (Redis.GetLastRunTimestamp w store listId).1⟩ =
      .decoded page1)
    (hT : page1.TotalItems ≠ 0)
    (hpush : saveMembers (w.ometria 0) page1.Members = some e) :
    SyncList w store order listId =
      ⟨.returned (Wrap (some e) "unable to save the first page of results"),
        [.GetLastRunTimestamp listId,
         .getMembersPage ⟨listId, 0, count, (Redis.GetLastRunTimestamp w store listId).1⟩,
         .saveMembers page1.Members], [], 0, store⟩ := by
  have hfetch := getMembersPage_decoded w listId 0 count _ page1 hpage
  unfold SyncList
  rw [GetLastRunTimestamp_ok w store listId hget]
  simp only [hfetch, hT, if_false, hpush]
  rfl

/-- The cycle when page 0 is pushed and `numberOfPages == 1`. -/
theorem SyncList_one_page (w : World) (store : Store) (order : List Nat) (listId : String)
    (page1 : MembersResults)
    (hget : w.redisGet = none)
    (hpage : w.mailchimp ⟨listId, 0, count, (Redis.GetLastRunTimestamp w store listId).1⟩ =
      .decoded page1)
    (hT : page1.TotalItems ≠ 0)
    (hpush : saveMembers (w.ometria 0) page1.Members = none)
    (hone : numberOfPages page1.TotalItems = 1) :
    SyncList w store order listId =
      ⟨.returned (Wrap (Redis.SetCompletedRun w store w.startClock listId).2
          "unable to save the last run timestamp"),
        [.GetLastRunTimestamp listId,
         .getMembersPage ⟨listId, 0, count, (Redis.GetLastRunTimestamp w store listId).1⟩,
         .saveMembers page1.Members, .SetCompletedRun w.startClock listId], [], 0,
        (Redis.SetCompletedRun w store w.startClock listId).1⟩ := by
  have hfetch := getMembersPage_decoded w listId 0 count _ page1 hpage
  unfold SyncList
  rw [GetLastRunTimestamp_ok w store listId hget]
  simp only [hfetch, hT, if_false, hpush, hone, if_true]
  cases hs : w.redisSet <;> simp [Redis.SetCompletedRun, hs, Wrap]

/-- The cycle when page 0 is pushed and `numberOfPages != 1`: the fan-out is spawned and the
drain loop decides the rest. -/
theorem SyncList_fan_out (w : World) (store : Store) (order : List Nat) (listId : String)
    (page1 : MembersResults)
    (hget : w.redisGet = none)
    (hpage : w.mailchimp ⟨listId, 0, count, (Redis.GetLastRunTimestamp w store listId).1⟩ =
      .decoded page1)
    (hT : page1.TotalItems ≠ 0)
    (hpush : saveMembers (w.ometria 0) page1.Members = none)
    (hmany : numberOfPages page1.TotalItems ≠ 1) :
    SyncList w store order listId =
      { drain w listId w.startClock page1.TotalItems page1.Members.length store
          (order.map (fun (i : Nat) => worker w listId ((i : Int) * count)
            (Redis.GetLastRunTimestamp w store listId).1)) with
        calls := [.GetLastRunTimestamp listId,
            .getMembersPage ⟨listId, 0, count, (Redis.GetLastRunTimestamp w store listId).1⟩,
            .saveMembers page1.Members] ++
          (drain w listId w.startClock page1.TotalItems page1.Members.length store
            (order.map (fun (i : Nat) => worker w listId ((i : Int) * count)
              (Redis.GetLastRunTimestamp w store listId).1))).calls
        spawned := (fanOutIndices (numberOfPages page1.TotalItems)).map
          (fun (i : Nat) => (⟨listId, (i : Int) * count, count,
            (Redis.GetLastRunTimestamp w store listId).1⟩ : PageRequest)) } := by
  have hfetch := getMembersPage_decoded w listId 0 count _ page1 hpage
  unfold SyncList
  rw [GetLastRunTimestamp_ok w store listId hget]
  simp only [hfetch, hT, if_false, hpush, hmany]
  rfl

/-! ### C6: the single-page shortcut -/

/-- C6, as stated, fails at the boundary `T = P = 900`: `numberOfPages` is `900 / 900 + 1 = 2`,
so a fan-out goroutine is spawned for offset 900 and the commit is left to the drain loop. -/
theorem single_page_shortcut_fails_at_boundary :
    (0 : Int) < 900 ∧ (900 : Int) ≤ count ∧
    (SyncList fullPageList emptyStore [1] "list").spawned = [⟨"list", 900, 900, ""⟩] ∧
    pageRequests (SyncList fullPageList emptyStore [1] "list") =
      [⟨"list", 0, 900, ""⟩, ⟨"list", 900, 900, ""⟩] ∧
    (SyncList fullPageList emptyStore [1] "list").consumed = 1 := by
  set_option maxRecDepth 100000 in decide

/-- C6, amended: for every total `T` with `0 < T < 900`, exactly one page (offset 0) is
fetched and pushed and no fan-out goroutine is spawned; when that push returns `nil`,
`SetCompletedRun` is the very next call, and when it returns an error the cycle ends there
without a commit. -/
theorem SyncList_single_page (w : World) (store : Store) (order : List Nat) (listId : String)
    (page1 : MembersResults)
    (hget : w.redisGet = none)
    (hpage : w.mailchimp ⟨listId, 0, count, (Redis.GetLastRunTimestamp w store listId).1⟩ =
      .decoded page1)
    (hpos : 0 < page1.TotalItems) (hlt : page1.TotalItems < count) :
    (SyncList w store order listId).spawned = [] ∧
    (SyncList w store order listId).consumed = 0 ∧
    pageRequests (SyncList w store order listId) =
      [⟨listId, 0, count, (Redis.GetLastRunTimestamp w store listId).1⟩] ∧
    pushes (SyncList w store order listId) = 1 ∧
    (saveMembers (w.ometria 0) page1.Members = none →
      (SyncList w store order listId).calls =
        [.GetLastRunTimestamp listId,
         .getMembersPage ⟨listId, 0, count, (Redis.GetLastRunTimestamp w store listId).1⟩,
         .saveMembers page1.Members, .SetCompletedRun w.startClock listId] ∧
      (SyncList w store order listId).ret =
        .returned (Wrap (Redis.SetCompletedRun w store w.startClock listId).2
          "unable to save the last run timestamp")) ∧
    (∀ e, saveMembers (w.ometria 0) page1.Members = some e →
      (SyncList w store order listId).calls =
        [.GetLastRunTimestamp listId,
         .getMembersPage ⟨listId, 0, count, (Redis.GetLastRunTimestamp w store listId).1⟩,
         .saveMembers page1.Members] ∧
      commits (SyncList w store order listId) = 0 ∧
      (SyncList w store order listId).ret =
        .returned (Wrap (some e) "unable to save the first page of results")) := by
  have hT : page1.TotalItems ≠ 0 := by omega
  have hone : numberOfPages page1.TotalItems = 1 := by
    rw [numberOfPages_of_nonneg _ (le_of_lt hpos)]
    unfold count at hlt
    omega
  cases hpush : saveMembers (w.ometria 0) page1.Members with
  | none =>
    rw [SyncList_one_page w store order listId page1 hget hpage hT hpush hone]
    simp [pageRequests, pushes]
  | some e =>
    rw [SyncList_push_error w store order listId page1 e hget hpage hT hpush]
    simp [pageRequests, pushes, commits]

/-- Witness of C6 amended: a list of 899 members is synchronised with one fetch, one push and
the commit right after it. -/
theorem SyncList_single_page_witness :
    (SyncList (worldOf (fun _ => .decoded ⟨[someMember], 899⟩) (fun _ => .response 201))
      emptyStore [] "list").calls =
      [.GetLastRunTimestamp "list", .getMembersPage ⟨"list", 0, 900, ""⟩,
       .saveMembers [someMember], .SetCompletedRun 100 "list"] :=
  ((SyncList_single_page (worldOf (fun _ => .decoded ⟨[someMember], 899⟩)
      (fun _ => .response 201)) emptyStore [] "list" ⟨[someMember], 899⟩ rfl rfl
      (by decide) (by decide)).2.2.2.2.1 (by decide)).1

/-! ### C8: the page plan -/

/-- C8, as stated, fails when the page-0 push returns an error: with `T = 1000` the plan has
`1000 / 900 + 1 = 2` pages, yet the cycle stops after the page-0 request and no further
request is made. -/
theorem page_plan_not_issued_after_push_error :
    (0 : Int) < 1000 ∧
    numberOfPages 1000 = 2 ∧
    pageRequests (SyncList unreachableOmetria emptyStore [1] "list") = [⟨"list", 0, 900, ""⟩] ∧
    (pageRequests (SyncList unreachableOmetria emptyStore [1] "list")).length ≠ 1000 / 900 + 1 := by
  set_option maxRecDepth 100000 in decide

theorem range_succ_eq_zero_cons (n : Nat) : List.range (n + 1) = 0 :: List.range' 1 n := by
  rw [List.range_eq_range', List.range'_succ]

/-- C8, amended: for every total `T > 0`, `numberOfPages` is `T / 900 + 1 ≥ 1`; when the
page-0 push returns `nil`, the page-0 request together with the requests handed to fan-out
goroutines is exactly one request per offset `0, 900, …, (T / 900) * 900`, each with count 900
and the since-filter read from the watermark store, `T / 900 + 1` requests in all; when the
page-0 push returns an error, the page-0 request is the only one. -/
theorem SyncList_page_plan (w : World) (store : Store) (order : List Nat) (listId : String)
    (page1 : MembersResults) (T : Nat)
    (hget : w.redisGet = none)
    (hpage : w.mailchimp ⟨listId, 0, count, (Redis.GetLastRunTimestamp w store listId).1⟩ =
      .decoded page1)
    (hT : page1.TotalItems = T) (hpos : 0 < T) :
    numberOfPages page1.TotalItems = ((T / 900 + 1 : Nat) : Int) ∧
    1 ≤ numberOfPages page1.TotalItems ∧
    (saveMembers (w.ometria 0) page1.Members = none →
      pageRequests (SyncList w store order listId) =
        (List.range (T / 900 + 1)).map (fun (i : Nat) =>
          (⟨listId, (i : Int) * 900, 900, (Redis.GetLastRunTimestamp w store listId).1⟩ :
            PageRequest)) ∧
      (pageRequests (SyncList w store order listId)).length = T / 900 + 1) ∧
    (saveMembers (w.ometria 0) page1.Members ≠ none →
      pageRequests (SyncList w store order listId) =
        [⟨listId, 0, 900, (Redis.GetLastRunTimestamp w store listId).1⟩]) := by
  have hne : page1.TotalItems ≠ 0 := by omega
  have hpages : numberOfPages page1.TotalItems = ((T / 900 + 1 : Nat) : Int) := by
    rw [numberOfPages_of_nonneg _ (by omega), hT]
    push_cast
    rfl
  refine ⟨hpages, by rw [hpages]; omega, ?_, ?_⟩
  · intro hpush
    have key : pageRequests (SyncList w store order listId) =
        (List.range (T / 900 + 1)).map (fun (i : Nat) =>
          (⟨listId, (i : Int) * 900, 900, (Redis.GetLastRunTimestamp w store listId).1⟩ :
            PageRequest)) := by
      by_cases hone : numberOfPages page1.TotalItems = 1
      · rw [SyncList_one_page w store order listId page1 hget hpage hne hpush hone]
        have h0 : T / 900 = 0 := by rw [hpages] at hone; omega
        simp [pageRequests, h0, count, List.range_succ]
      · rw [SyncList_fan_out w store order listId page1 hget hpage hne hpush hone]
        rw [range_succ_eq_zero_cons]
        have hidx : fanOutIndices (numberOfPages page1.TotalItems) = List.range' 1 (T / 900) := by
          unfold fanOutIndices
          rw [hpages]
          congr 1
        rcases drain_calls w listId w.startClock page1.TotalItems
            (order.map (fun (i : Nat) => worker w listId ((i : Int) * count)
              (Redis.GetLastRunTimestamp w store listId).1)) page1.Members.length store with h | h
        · simp only [pageRequests, h, hidx]
          simp [count]
        · simp only [pageRequests, h, hidx]
          simp [count]
    exact ⟨key, by rw [key]; simp⟩
  · intro hpush
    cases hp : saveMembers (w.ometria 0) page1.Members with
    | none => exact absurd hp hpush
    | some e =>
      rw [SyncList_push_error w store order listId page1 e hget hpage hne hp]
      simp [pageRequests, count]

/-- Witness of C8 amended: a list of 1000 members is planned as the two requests at offsets
0 and 900. -/
theorem SyncList_page_plan_witness :
    pageRequests (SyncList twoPageList emptyStore [1] "list") =
      [⟨"list", 0, 900, ""⟩, ⟨"list", 900, 900, ""⟩] :=
  ((SyncList_page_plan twoPageList emptyStore [1] "list" ⟨List.replicate 900 someMember, 1000⟩
      1000 rfl rfl rfl (by decide)).2.2.1
    (saveMembers_of_response _ _ 201 rfl)).1

/-! ### The drain loop -/

theorem received_nonneg (x : membersResultsWrapper) : 0 ≤ received x := by
  unfold received
  cases x.MembersResults with
  | none => exact le_refl 0
  | some r => exact Int.natCast_nonneg _

theorem sum_received_nonneg (results : List membersResultsWrapper) :
    0 ≤ (results.map received).sum := by
  induction results with
  | nil => simp
  | cons x later ih =>
    have := received_nonneg x
    simp only [List.map_cons, List.sum_cons]
    omega

theorem runningCount_cons (np : Int) (x : membersResultsWrapper)
    (later : List membersResultsWrapper) :
    runningCount np (x :: later) = runningCount (np + received x) later := by
  simp only [runningCount, List.map_cons, List.sum_cons]
  omega

theorem commits_with_consumed (c : Cycle) (n : Nat) :
    commits { c with consumed := n } = commits c := rfl

/-- An error wrapper received before the running count reaches the total ends the loop
without a commit. -/
theorem drain_error_received (w : World) (listId : String) (now : Time) (T : Int)
    (x : membersResultsWrapper) (post : List membersResultsWrapper) (hx : x.Error ≠ none)
    (pre : List membersResultsWrapper) :
    ∀ (np : Int) (store : Store), runningCount np pre < T →
      commits (drain w listId now T np store (pre ++ x :: post)) = 0 ∧
      (drain w listId now T np store (pre ++ x :: post)).store = store := by
  induction pre with
  | nil =>
    intro np store _
    cases hE : x.Error with
    | none => exact absurd hE hx
    | some e => simp [drain, hE, commits]
  | cons y pre ih =>
    intro np store hlt
    rw [List.cons_append]
    unfold drain
    cases hE : y.Error with
    | some e => simp [commits]
    | none =>
      cases hM : y.MembersResults with
      | none => simp [commits]
      | some r =>
        have hy : received y = r.Members.length := by simp [received, hM]
        rw [runningCount_cons, hy] at hlt
        have hs := sum_received_nonneg pre
        have hnot : ¬ (np + (r.Members.length : Int) ≥ T) := by
          unfold runningCount at hlt
          omega
        simp only [hnot, if_false]
        exact ih _ store hlt

/-- On error-free results the loop commits at the first result that brings the running count
to the total, having received exactly the results up to it. -/
theorem drain_first_reach (w : World) (listId : String) (now : Time) (T : Int)
    (results : List membersResultsWrapper)
    (hok : ∀ x ∈ results, x.Error = none ∧ x.MembersResults ≠ none) :
    ∀ (np : Int) (store : Store) (k : Nat), k < results.length →
      T ≤ runningCount np (results.take (k + 1)) →
      (∀ j, j < k → runningCount np (results.take (j + 1)) < T) →
      (drain w listId now T np store results).calls = [.SetCompletedRun now listId] ∧
      (drain w listId now T np store results).consumed = k + 1 ∧
      (drain w listId now T np store results).ret =
        .returned (Wrap (Redis.SetCompletedRun w store now listId).2
          "unable to save the last run timestamp") ∧
      (drain w listId now T np store results).store =
        (Redis.SetCompletedRun w store now listId).1 := by
  induction results with
  | nil => intro np store k hk; simp at hk
  | cons x later ih =>
    intro np store k hk hreach hfirst
    obtain ⟨hE, hM⟩ := hok x (List.mem_cons_self _ _)
    cases hM2 : x.MembersResults with
    | none => exact absurd hM2 hM
    | some r =>
      have hx : received x = r.Members.length := by simp [received, hM2]
      unfold drain
      simp only [hE, hM2]
      cases k with
      | zero =>
        have hge : np + (r.Members.length : Int) ≥ T := by
          simp only [zero_add, List.take_succ_cons, List.take_zero, runningCount_cons, hx] at hreach
          simpa [runningCount] using hreach
        simp only [hge, if_true]
        cases hs : w.redisSet <;> simp [Redis.SetCompletedRun, hs, Wrap]
      | succ k =>
        have h0 := hfirst 0 (Nat.succ_pos k)
        simp only [zero_add, List.take_succ_cons, List.take_zero, runningCount_cons, hx] at h0
        have hnot : ¬ (np + (r.Members.length : Int) ≥ T) := by
          simpa [runningCount] using h0
        simp only [hnot, if_false]
        have hk2 : k < later.length := by simpa using hk
        have hreach2 : T ≤ runningCount (np + (r.Members.length : Int)) (later.take (k + 1)) := by
          simpa only [List.take_succ_cons, runningCount_cons, hx] using hreach
        have hfirst2 : ∀ j, j < k →
            runningCount (np + (r.Members.length : Int)) (later.take (j + 1)) < T := by
          intro j hj
          have := hfirst (j + 1) (Nat.succ_lt_succ hj)
          simpa only [List.take_succ_cons, runningCount_cons, hx] using this
        obtain ⟨h1, h2, h3, h4⟩ :=
          ih (fun y hy => hok y (List.mem_cons_of_mem _ hy)) _ store k hk2 hreach2 hfirst2
        exact ⟨h1, by simp [h2], h3, h4⟩

/-- On error-free results that never bring the running count to the total, the loop receives
them all and ends, at the close of the channel, with `nil` and without a commit. -/
theorem drain_never_reach (w : World) (listId : String) (now : Time) (T : Int)
    (results : List membersResultsWrapper)
    (hok : ∀ x ∈ results, x.Error = none ∧ x.MembersResults ≠ none) :
    ∀ (np : Int) (store : Store),
      (∀ k, k < results.length → runningCount np (results.take (k + 1)) < T) →
      (drain w listId now T np store results).calls = [] ∧
      (drain w listId now T np store results).consumed = results.length ∧
      (drain w listId now T np store results).ret = .returned none ∧
      (drain w listId now T np store results).store = store := by
  induction results with
  | nil => intro np store _; simp [drain]
  | cons x later ih =>
    intro np store hbelow
    obtain ⟨hE, hM⟩ := hok x (List.mem_cons_self _ _)
    cases hM2 : x.MembersResults with
    | none => exact absurd hM2 hM
    | some r =>
      have hx : received x = r.Members.length := by simp [received, hM2]
      unfold drain
      simp only [hE, hM2]
      have h0 := hbelow 0 (by simp)
      simp only [zero_add, List.take_succ_cons, List.take_zero, runningCount_cons, hx] at h0
      have hnot : ¬ (np + (r.Members.length : Int) ≥ T) := by
        simpa [runningCount] using h0
      simp only [hnot, if_false]
      have hbelow2 : ∀ k, k < later.length →
          runningCount (np + (r.Members.length : Int)) (later.take (k + 1)) < T := by
        intro k hk
        have := hbelow (k + 1) (by simpa using hk)
        simpa only [List.take_succ_cons, runningCount_cons, hx] using this
      obtain ⟨h1, h2, h3, h4⟩ :=
        ih (fun y hy => hok y (List.mem_cons_of_mem _ hy)) _ store hbelow2
      exact ⟨h1, by simp [h2], h3, h4⟩

/-- A fan-out goroutine that reports no error reports a page. -/
theorem worker_ok_has_page (w : World) (listId : String) (offset : Int) (since : String)
    (h : (worker w listId offset since).Error = none) :
    (worker w listId offset since).MembersResults ≠ none := by
  unfold worker getMembersPage at *
  cases hm : w.mailchimp ⟨listId, offset, count, since⟩ <;> simp_all [Wrap]

/-! ### C1: watermark atomicity -/

/-- C1, as stated, fails: with `T = 1800` three pages are planned; when the result of the
page at offset 900 is received first, the running count reaches 1800 and `SetCompletedRun`
is called, although the fetch of the page at offset 1800 fails in the same cycle. The stored
watermark changes. -/
theorem watermark_committed_despite_failed_page :
    List.Perm [1, 2] (fanOutIndices (numberOfPages 1800)) ∧
    (getMembersPage trailingFailureList "list" 1800 count "").2 ≠ none ∧
    (⟨"list", 1800, 900, ""⟩ : PageRequest) ∈
      (SyncList trailingFailureList emptyStore [1, 2] "list").spawned ∧
    commits (SyncList trailingFailureList emptyStore [1, 2] "list") = 1 ∧
    emptyStore "list" = none ∧
    (SyncList trailingFailureList emptyStore [1, 2] "list").store "list" =
      some "1970-01-01T00:01:47Z" := by
  set_option maxRecDepth 100000 in decide

/-- C1, amended: in every cycle in which the watermark read fails, the page-0 fetch fails,
the page-0 push returns an error, or the wrapper of a failed fan-out page is received before
the running count has reached `total_items`, `SyncList` never calls `SetCompletedRun` and the
stored watermark is left as it was. -/
theorem SyncList_no_commit_on_observed_failure (w : World) (store : Store) (order : List Nat)
    (listId : String) (hfail : FailureObserved w store order listId) :
    commits (SyncList w store order listId) = 0 ∧
    (SyncList w store order listId).store = store := by
  cases hget : w.redisGet with
  | some e =>
    unfold SyncList Redis.GetLastRunTimestamp
    simp [hget, commits]
  | none =>
    rcases hfail with h | h | ⟨page1, hpage, hT, h⟩
    · exact absurd hget h
    · have hsince := GetLastRunTimestamp_ok w store listId hget
      cases hf : getMembersPage w listId 0 count (Redis.GetLastRunTimestamp w store listId).1 with
      | mk pg err =>
        cases err with
        | none => rw [hf] at h; exact absurd rfl h
        | some e =>
          unfold SyncList
          rw [hsince]
          simp only [hf]
          simp [commits]
    · rcases h with h | ⟨hmany, before, i, after, horder, herr, hlt⟩
      · cases hp : saveMembers (w.ometria 0) page1.Members with
        | none => exact absurd hp h
        | some e =>
          rw [SyncList_push_error w store order listId page1 e hget hpage hT hp]
          simp [commits]
      · cases hp : saveMembers (w.ometria 0) page1.Members with
        | some e =>
          rw [SyncList_push_error w store order listId page1 e hget hpage hT hp]
          simp [commits]
        | none =>
          rw [SyncList_fan_out w store order listId page1 hget hpage hT hp hmany]
          have hd := drain_error_received w listId w.startClock page1.TotalItems
            (worker w listId ((i : Int) * count) (Redis.GetLastRunTimestamp w store listId).1)
            (after.map (fun (j : Nat) => worker w listId ((j : Int) * count)
              (Redis.GetLastRunTimestamp w store listId).1)) herr
            (before.map (fun (j : Nat) => worker w listId ((j : Int) * count)
              (Redis.GetLastRunTimestamp w store listId).1)) page1.Members.length store hlt
          have hmap : order.map (fun (j : Nat) => worker w listId ((j : Int) * count)
              (Redis.GetLastRunTimestamp w store listId).1) =
              before.map (fun (j : Nat) => worker w listId ((j : Int) * count)
                (Redis.GetLastRunTimestamp w store listId).1) ++
              worker w listId ((i : Int) * count) (Redis.GetLastRunTimestamp w store listId).1 ::
              after.map (fun (j : Nat) => worker w listId ((j : Int) * count)
                (Redis.GetLastRunTimestamp w store listId).1) := by
            rw [horder, List.map_append, List.map_cons]
          rw [hmap]
          refine ⟨?_, hd.2⟩
          have hc := hd.1
          simp only [commits] at hc ⊢
          simp [hc, List.countP_append]

/-- Witness of C1 amended: in the same 1800-member cycle, when the failed trailing page
reports first (900 records counted so far), nothing is committed. -/
theorem SyncList_no_commit_on_observed_failure_witness :
    commits (SyncList trailingFailureList emptyStore [2, 1] "list") = 0 ∧
    (SyncList trailingFailureList emptyStore [2, 1] "list").store = emptyStore :=
  SyncList_no_commit_on_observed_failure trailingFailureList emptyStore [2, 1] "list"
    (Or.inr (Or.inr ⟨⟨List.replicate 900 someMember, 1800⟩, rfl, by decide,
      Or.inr ⟨by decide, [], 2, [1], rfl, by decide, by
        show runningCount ((List.replicate 900 someMember).length : Int) [] < 1800
        rw [List.length_replicate]
        decide⟩⟩))

/-! ### C10: the completion decision -/

/-- C10: when the fan-out is reached and every received result is error-free, `SyncList`
calls `SetCompletedRun` at most once; it calls it exactly upon receiving the first result
that brings `len(page0.Members)` plus the received record counts to `total_items` or more
(and receives nothing after it); and if the count stays below `total_items` through all
results, it receives them all and returns `nil` without calling `SetCompletedRun`. -/
theorem SyncList_completion_decision (w : World) (store : Store) (order : List Nat)
    (listId : String) (page1 : MembersResults)
    (hget : w.redisGet = none)
    (hpage : w.mailchimp ⟨listId, 0, count, (Redis.GetLastRunTimestamp w store listId).1⟩ =
      .decoded page1)
    (hT : page1.TotalItems ≠ 0)
    (hpush : saveMembers (w.ometria 0) page1.Members = none)
    (hmany : numberOfPages page1.TotalItems ≠ 1)
    (hok : ∀ i ∈ order, (worker w listId ((i : Int) * count)
      (Redis.GetLastRunTimestamp w store listId).1).Error = none) :
    commits (SyncList w store order listId) ≤ 1 ∧
    (∀ k, k < order.length →
      page1.TotalItems ≤ runningCount page1.Members.length
        ((order.take (k + 1)).map (fun (i : Nat) => worker w listId ((i : Int) * count)
          (Redis.GetLastRunTimestamp w store listId).1)) →
      (∀ j, j < k → runningCount page1.Members.length
        ((order.take (j + 1)).map (fun (i : Nat) => worker w listId ((i : Int) * count)
          (Redis.GetLastRunTimestamp w store listId).1)) < page1.TotalItems) →
      commits (SyncList w store order listId) = 1 ∧
      (SyncList w store order listId).consumed = k + 1 ∧
      (SyncList w store order listId).calls.getLast? = some (.SetCompletedRun w.startClock listId) ∧
      (SyncList w store order listId).ret =
        .returned (Wrap (Redis.SetCompletedRun w store w.startClock listId).2
          "unable to save the last run timestamp")) ∧
    ((∀ k, k < order.length → runningCount page1.Members.length
        ((order.take (k + 1)).map (fun (i : Nat) => worker w listId ((i : Int) * count)
          (Redis.GetLastRunTimestamp w store listId).1)) < page1.TotalItems) →
      commits (SyncList w store order listId) = 0 ∧
      (SyncList w store order listId).consumed = order.length ∧
      (SyncList w store order listId).ret = .returned none ∧
      (SyncList w store order listId).store = store) := by
  rw [SyncList_fan_out w store order listId page1 hget hpage hT hpush hmany]
  have hres : ∀ x ∈ order.map (fun (i : Nat) => worker w listId ((i : Int) * count)
      (Redis.GetLastRunTimestamp w store listId).1),
      x.Error = none ∧ x.MembersResults ≠ none := by
    intro x hx
    obtain ⟨i, hi, rfl⟩ := List.mem_map.1 hx
    exact ⟨hok i hi, worker_ok_has_page w listId _ _ (hok i hi)⟩
  refine ⟨?_, ?_, ?_⟩
  · rcases drain_calls w listId w.startClock page1.TotalItems
        (order.map (fun (i : Nat) => worker w listId ((i : Int) * count)
          (Redis.GetLastRunTimestamp w store listId).1)) page1.Members.length store with h | h
    · simp [commits, h]
    · simp [commits, h]
  · intro k hk hreach hfirst
    obtain ⟨h1, h2, h3, h4⟩ := drain_first_reach w listId w.startClock page1.TotalItems _ hres
      page1.Members.length store k (by simpa using hk)
      (by simpa only [List.map_take] using hreach)
      (fun j hj => by simpa only [List.map_take] using hfirst j hj)
    refine ⟨?_, h2, ?_, h3⟩
    · simp [commits, h1]
    · simp [h1]
  · intro hbelow
    obtain ⟨h1, h2, h3, h4⟩ := drain_never_reach w listId w.startClock page1.TotalItems _ hres
      page1.Members.length store
      (fun k hk => by
        have := hbelow k (by simpa using hk)
        simpa only [List.map_take] using this)
    refine ⟨?_, by simpa using h2, h3, h4⟩
    simp [commits, h1]

set_option maxRecDepth 100000 in
/-- Witness of C10: on a 1000-member list the single fan-out result brings the count from
900 to 1000, and the commit follows it. -/
theorem SyncList_completion_decision_witness :
    commits (SyncList twoPageList emptyStore [1] "list") = 1 ∧
    (SyncList twoPageList emptyStore [1] "list").consumed = 1 :=
  have h := (SyncList_completion_decision twoPageList emptyStore [1] "list"
    ⟨List.replicate 900 someMember, 1000⟩ rfl rfl (by decide)
    (saveMembers_of_response _ _ 201 rfl) (by decide) (by decide)).2.1 0 (by decide)
    (by decide) (fun j hj => absurd hj (Nat.not_lt_zero j))
  ⟨h.1, h.2.1⟩

/-! ### C9: the concurrency bound -/

theorem countP_set_of_getElem? (p : Phase → Bool) (l : List Phase) (i : Nat) (a b : Phase)
    (h : l[i]? = some a) :
    List.countP p (l.set i b) + (if p a then 1 else 0) =
      List.countP p l + (if p b then 1 else 0) := by
  obtain ⟨hi, ha⟩ := List.getElem?_eq_some.1 h
  rw [List.countP_set p l i b hi, ha]
  have hpos : (if p a = true then 1 else 0) ≤ List.countP p l := by
    by_cases hp : p a = true
    · simp only [hp, if_true]
      exact List.countP_pos_iff.2 ⟨a, ha ▸ List.getElem_mem hi, hp⟩
    · simp [hp]
  omega

/-- The buffered channel holds one value per goroutine between its send and its deferred
receive, and never more than its capacity; every step keeps it so. -/
theorem FanOut.step_keeps_bound (s s' : FanOut) (a : Action) (h : s.step a = some s')
    (hinv : s.slots = s.holders ∧ s.slots ≤ concurrencyLimit) :
    s'.slots = s'.holders ∧ s'.slots ≤ concurrencyLimit := by
  obtain ⟨heq, hle⟩ := hinv
  unfold FanOut.holders at *
  cases a with
  | acquire i =>
    simp only [FanOut.step] at h
    split at h
    · rename_i hg
      obtain ⟨hw, hlt⟩ := hg
      cases h
      have := countP_set_of_getElem? Phase.holdsSlot s.workers i .waiting .running hw
      simp only [Phase.holdsSlot] at this
      simp only
      constructor <;> simp at this <;> omega
    · cases h
  | finish i =>
    simp only [FanOut.step] at h
    split at h
    · rename_i hw
      cases h
      have := countP_set_of_getElem? Phase.holdsSlot s.workers i .running .reporting hw
      simp only [Phase.holdsSlot] at this
      simp only
      constructor <;> simp at this <;> omega
    · cases h
  | deliver i =>
    simp only [FanOut.step] at h
    split at h
    · rename_i hw
      cases h
      have := countP_set_of_getElem? Phase.holdsSlot s.workers i .reporting .delivered hw
      simp only [Phase.holdsSlot] at this
      simp only
      constructor <;> simp at this <;> omega
    · cases h
  | release i =>
    simp only [FanOut.step] at h
    split at h
    · rename_i hg
      obtain ⟨hw, hpos⟩ := hg
      cases h
      have := countP_set_of_getElem? Phase.holdsSlot s.workers i .delivered .done hw
      simp only [Phase.holdsSlot] at this
      simp only
      constructor <;> simp at this <;> omega
    · cases h

theorem FanOut.run_keeps_bound (acts : List Action) :
    ∀ (s s' : FanOut), s.run acts = some s' →
      (s.slots = s.holders ∧ s.slots ≤ concurrencyLimit) →
      (s'.slots = s'.holders ∧ s'.slots ≤ concurrencyLimit) := by
  induction acts with
  | nil =>
    intro s s' h hinv
    simp only [FanOut.run] at h
    cases h
    exact hinv
  | cons a later ih =>
    intro s s' h hinv
    simp only [FanOut.run] at h
    cases hstep : s.step a with
    | none => rw [hstep] at h; cases h
    | some t =>
      rw [hstep] at h
      exact ih t s' h (FanOut.step_keeps_bound s t a hstep hinv)

/-- C9: in every state the fan-out of any number of goroutines can reach, at most
`concurrencyLimit = 9` goroutines hold a slot of `concurrencyLimitChan`, hence at most 9
page fetches or pushes are in flight. -/
theorem FanOut_concurrency_bound (n : Nat) (acts : List Action) (s : FanOut)
    (h : (FanOut.start n).run acts = some s) :
    s.holders ≤ 9 ∧ s.inFlight ≤ 9 ∧ s.slots = s.holders := by
  have hstart : (FanOut.start n).slots = (FanOut.start n).holders ∧
      (FanOut.start n).slots ≤ concurrencyLimit := by
    simp [FanOut.start, FanOut.holders, List.countP_replicate, Phase.holdsSlot]
  obtain ⟨heq, hle⟩ := FanOut.run_keeps_bound acts (FanOut.start n) s h hstart
  have hmono : s.inFlight ≤ s.holders := by
    unfold FanOut.inFlight FanOut.holders
    apply List.countP_mono_left
    intro ph _ hph
    cases ph <;> simp_all [Phase.holdsSlot]
  unfold concurrencyLimit at hle
  omega

/-- Witness of C9: twelve goroutines, nine of which have acquired a slot. -/
theorem FanOut_concurrency_bound_witness :
    (⟨List.replicate 9 .running ++ List.replicate 3 .waiting, 9⟩ : FanOut).holders ≤ 9 ∧
    (⟨List.replicate 9 .running ++ List.replicate 3 .waiting, 9⟩ : FanOut).inFlight ≤ 9 ∧
    (⟨List.replicate 9 .running ++ List.replicate 3 .waiting, 9⟩ : FanOut).slots =
      (⟨List.replicate 9 .running ++ List.replicate 3 .waiting, 9⟩ : FanOut).holders :=
  FanOut_concurrency_bound 12 ((List.range 9).map Action.acquire) _ (by decide)

/-- With nine slots taken, a tenth goroutine cannot pass `concurrencyLimitChan <- struct{}{}`
until some goroutine has run its deferred receive. -/
theorem FanOut_tenth_acquire_blocks :
    (⟨List.replicate 9 .running ++ List.replicate 3 .waiting, 9⟩ : FanOut).step (.acquire 9) =
      none := by
  decide

/-! ### C4: name derivation -/

theorem splitBy_ne_nil (p : Char → Bool) (cs : List Char) : splitBy p cs ≠ [] := by
  cases cs with
  | nil => simp [splitBy]
  | cons c cs =>
    unfold splitBy
    by_cases hc : p c = true
    · simp [hc]
    · simp only [hc]
      cases splitBy p cs <;> simp

theorem splitBy_congr (p q : Char → Bool) (cs : List Char) (h : ∀ c ∈ cs, p c = q c) :
    splitBy p cs = splitBy q cs := by
  induction cs with
  | nil => rfl
  | cons c cs ih =>
    have hc := h c (List.mem_cons_self _ _)
    have ih2 := ih (fun d hd => h d (List.mem_cons_of_mem _ hd))
    unfold splitBy
    rw [hc, ih2]

/-- A text that starts with a non-separator starts with a non-empty piece. -/
theorem splitBy_head_nonempty (p : Char → Bool) (c : Char) (cs : List Char)
    (hc : p c = false) :
    ∃ piece rest, splitBy p (c :: cs) = (c :: piece) :: rest := by
  unfold splitBy
  simp only [hc]
  cases h : splitBy p cs with
  | nil => exact ⟨[], [], by simp⟩
  | cons piece rest => exact ⟨piece, rest, by simp⟩

/-- A text that ends with a non-separator ends with a non-empty piece. -/
theorem splitBy_last_nonempty (p : Char → Bool) (cs : List Char) :
    ∀ last, cs.getLast? = some last → p last = false →
      ∃ piece, (splitBy p cs).getLast? = some piece ∧ piece ≠ [] := by
  induction cs with
  | nil => intro last h; simp at h
  | cons c cs ih =>
    intro last hlast hp
    cases cs with
    | nil =>
      simp only [List.getLast?_singleton, Option.some.injEq] at hlast
      subst hlast
      refine ⟨[c], ?_, by simp⟩
      simp [splitBy, hp]
    | cons d ds =>
      rw [List.getLast?_cons_cons] at hlast
      obtain ⟨piece, hpiece, hne⟩ := ih last hlast hp
      have hnil := splitBy_ne_nil p (d :: ds)
      unfold splitBy
      by_cases hc : p c = true
      · simp only [hc, if_true]
        cases hs : splitBy p (d :: ds) with
        | nil => exact absurd hs hnil
        | cons x xs =>
          rw [hs] at hpiece
          exact ⟨piece, by rw [List.getLast?_cons_cons]; exact hpiece, hne⟩
      · simp only [hc]
        cases hs : splitBy p (d :: ds) with
        | nil => exact absurd hs hnil
        | cons x xs =>
          rw [hs] at hpiece
          cases xs with
          | nil => exact ⟨c :: x, by simp, by simp⟩
          | cons y ys =>
            refine ⟨piece, ?_, hne⟩
            rw [List.getLast?_cons_cons] at hpiece
            simp only [Bool.false_eq_true, if_false, List.getLast?_cons_cons]
            exact hpiece

theorem filter_getLast?_of_keep {α : Type} (f : α → Bool) (l : List α) (x : α)
    (hx : l.getLast? = some x) (hf : f x = true) : (l.filter f).getLast? = some x := by
  have hne : l ≠ [] := by
    intro h
    simp [h] at hx
  have hlast : l.getLast hne = x := by
    rw [List.getLast?_eq_getLast l hne] at hx
    exact Option.some.inj hx
  rw [← List.dropLast_append_getLast hne, hlast, List.filter_append]
  simp [hf]

theorem isSpace_space : isSpace ' ' = true := by decide

/-- On a text whose only white space is the space character and which neither starts nor
ends with white space, cutting at every space and taking the white-space-separated tokens
agree on the first piece, on the last piece and on whether there is more than one. -/
theorem splitBy_space_agrees_with_tokens (c0 : Char) (cs : List Char)
    (hplain : ∀ c ∈ c0 :: cs, isSpace c = true → c = ' ')
    (hhead : isSpace c0 = false)
    (hlast : ∀ c, (c0 :: cs).getLast? = some c → isSpace c = false) :
    ((splitBy isSpace (c0 :: cs)).filter (fun piece => !piece.isEmpty)).head? =
      (splitBy (fun c => c == ' ') (c0 :: cs)).head? ∧
    ((splitBy isSpace (c0 :: cs)).filter (fun piece => !piece.isEmpty)).getLast? =
      (splitBy (fun c => c == ' ') (c0 :: cs)).getLast? ∧
    (1 < ((splitBy isSpace (c0 :: cs)).filter (fun piece => !piece.isEmpty)).length ↔
      1 < (splitBy (fun c => c == ' ') (c0 :: cs)).length) := by
  have hsame : splitBy (fun c => c == ' ') (c0 :: cs) = splitBy isSpace (c0 :: cs) := by
    apply splitBy_congr
    intro c hc
    by_cases hsp : isSpace c = true
    · rw [hsp, hplain c hc hsp]
      rfl
    · have hne : c ≠ ' ' := fun h => hsp (h ▸ isSpace_space)
      simp [hsp, hne]
  rw [hsame]
  obtain ⟨piece, rest, hP⟩ := splitBy_head_nonempty isSpace c0 cs hhead
  obtain ⟨last, hlast1⟩ : ∃ last, (c0 :: cs).getLast? = some last :=
    ⟨_, List.getLast?_eq_getLast _ (List.cons_ne_nil _ _)⟩
  obtain ⟨lp, hlp, hlpne⟩ := splitBy_last_nonempty isSpace (c0 :: cs) last hlast1
    (hlast last hlast1)
  have hkeep : (fun piece : List Char => !piece.isEmpty) lp = true := by
    cases lp with
    | nil => exact absurd rfl hlpne
    | cons a as => rfl
  have hfl := filter_getLast?_of_keep (fun piece : List Char => !piece.isEmpty) _ lp hlp hkeep
  refine ⟨?_, ?_, ?_⟩
  · rw [hP]
    simp [List.filter_cons]
  · rw [hfl, hlp]
  · rw [hP] at hfl hlp ⊢
    cases rest with
    | nil => simp [List.filter_cons]
    | cons y ys =>
      rw [List.getLast?_cons_cons] at hlp
      have hfy := filter_getLast?_of_keep (fun piece : List Char => !piece.isEmpty) _ lp hlp hkeep
      have hne : (y :: ys).filter (fun piece : List Char => !piece.isEmpty) ≠ [] := by
        intro h
        rw [h] at hfy
        simp at hfy
      have hpos : 0 < ((y :: ys).filter (fun piece : List Char => !piece.isEmpty)).length :=
        List.length_pos.2 hne
      have hcons : ((c0 :: piece) :: y :: ys).filter (fun piece : List Char => !piece.isEmpty) =
          (c0 :: piece) :: (y :: ys).filter (fun piece : List Char => !piece.isEmpty) := by
        rw [List.filter_cons]
        simp
      rw [hcons]
      simp only [List.length_cons]
      omega

/-- C4, as stated, fails on a full name with a leading space: `strings.Split(" Jane Public",
" ")` starts with an empty piece, which becomes the first name, while the first
white-space-separated token is `Jane`. A trailing space likewise empties the last name, and
a tab is not a cutting point at all. -/
theorem name_derivation_fails_on_leading_space :
    blank "" = true ∧ blank " Jane Public" = false ∧
    spec_tokens " Jane Public" = ["Jane", "Public"] ∧
    (MarshalJSON ⟨"1", "jane@example.org", " Jane Public", "subscribed", ⟨"", ""⟩⟩).FirstName
      = "" ∧
    spec_tokens "Jane Public " = ["Jane", "Public"] ∧
    (MarshalJSON ⟨"1", "jane@example.org", "Jane Public ", "subscribed", ⟨"", ""⟩⟩).LastName
      = "" ∧
    spec_tokens "Jane\tPublic" = ["Jane", "Public"] ∧
    (MarshalJSON ⟨"1", "jane@example.org", "Jane\tPublic", "subscribed", ⟨"", ""⟩⟩).FirstName
      = "Jane\tPublic" := by
  decide

theorem length_Split (s : String) (sep : Char) :
    (Split s sep).length = (splitBy (fun c => c == sep) s.data).length := by
  simp [Split]

/-- C4, amended: for every member whose merge-field names are both blank and whose
`full_name` is non-blank, has no white space other than the space character and neither
starts nor ends with white space, the output first name is the first white-space-separated
token of `full_name`, and the output last name is its last token when there is more than one
token and stays the (blank) merge field otherwise. -/
theorem MarshalJSON_name_derivation (member : Member)
    (hfirst : blank member.MergeFields.FirstName = true)
    (hlastName : blank member.MergeFields.LastName = true)
    (hfull : blank member.FullName = false)
    (hplain : ∀ c ∈ member.FullName.data, isSpace c = true → c = ' ')
    (hhead : ∀ c, member.FullName.data.head? = some c → isSpace c = false)
    (hlast : ∀ c, member.FullName.data.getLast? = some c → isSpace c = false) :
    (spec_tokens member.FullName).head? = some (MarshalJSON member).FirstName ∧
    (1 < (spec_tokens member.FullName).length →
      (spec_tokens member.FullName).getLast? = some (MarshalJSON member).LastName) ∧
    ((spec_tokens member.FullName).length ≤ 1 →
      (MarshalJSON member).LastName = member.MergeFields.LastName) := by
  cases hdata : member.FullName.data with
  | nil =>
    exfalso
    have : blank member.FullName = true := by
      simp [blank, len, TrimSpace, trimSpaceChars, hdata]
    rw [this] at hfull
    cases hfull
  | cons c0 cs =>
    rw [hdata] at hplain hhead hlast
    obtain ⟨h1, h2, h3⟩ := splitBy_space_agrees_with_tokens c0 cs hplain
      (hhead c0 rfl) hlast
    obtain ⟨piece, rest, hP⟩ := splitBy_head_nonempty (fun c => c == ' ') c0 cs (by
      have hh := hhead c0 rfl
      have hne : c0 ≠ ' ' := fun h => by rw [h, isSpace_space] at hh; cases hh
      simp [hne])
    have hf : (len (TrimSpace member.MergeFields.FirstName) == 0) = true := hfirst
    have hl : (len (TrimSpace member.MergeFields.LastName) == 0) = true := hlastName
    have hn : len (TrimSpace member.FullName) > 0 := by
      have : ¬ (len (TrimSpace member.FullName) = 0) := by
        intro h0
        simp [blank, h0] at hfull
      omega
    have hlen := length_Split member.FullName ' '
    rw [hdata] at hlen
    simp only [spec_tokens, hdata, List.length_map, List.head?_map, List.getLast?_map]
    rw [h1, h2, h3]
    refine ⟨?_, ?_, ?_⟩
    · simp only [MarshalJSON, hf, hn, Bool.true_and, decide_True, if_true]
      have hpos : (Split member.FullName ' ').length ≥ 1 := by
        rw [hlen, hP]
        simp
      simp only [hpos, if_true, List.headD_eq_head?, Split, hdata, List.head?_map, hP]
      simp
    · intro hmore
      have hgt : (Split member.FullName ' ').length > 1 := by
        rw [hlen]
        exact hmore
      simp only [MarshalJSON, hl, hn, Bool.true_and, decide_True, if_true, hgt,
        List.getLastD_eq_getLast?, Split, hdata, List.getLast?_map]
      cases hg : (splitBy (fun c => c == ' ') (c0 :: cs)).getLast? with
      | none =>
        have := splitBy_ne_nil (fun c => c == ' ') (c0 :: cs)
        simp [List.getLast?_eq_none_iff] at hg
        exact absurd hg this
      | some x => simp [hmore]
    · intro hle
      have hngt : ¬ ((Split member.FullName ' ').length > 1) := by
        rw [hlen]
        omega
      simp only [MarshalJSON, hl, hn, Bool.true_and, decide_True, if_true, hngt, if_false]

/-- Witness of C4 amended: the two examples of the specification. -/
theorem MarshalJSON_name_derivation_witness :
    (spec_tokens "Jane Q Public").head? =
      some (MarshalJSON ⟨"1", "jane@example.org", "Jane Q Public", "subscribed",
        ⟨"", ""⟩⟩).FirstName ∧
    (1 < (spec_tokens "Jane Q Public").length →
      (spec_tokens "Jane Q Public").getLast? =
        some (MarshalJSON ⟨"1", "jane@example.org", "Jane Q Public", "subscribed",
          ⟨"", ""⟩⟩).LastName) ∧
    ((spec_tokens "Jane Q Public").length ≤ 1 →
      (MarshalJSON ⟨"1", "jane@example.org", "Jane Q Public", "subscribed",
        ⟨"", ""⟩⟩).LastName = "") :=
  MarshalJSON_name_derivation ⟨"1", "jane@example.org", "Jane Q Public", "subscribed", ⟨"", ""⟩⟩
    (by decide) (by decide) (by decide) (by decide) (by decide) (by decide)

/-- The examples of the specification, run on the code. -/
theorem MarshalJSON_examples :
    MarshalJSON ⟨"1", "jane@example.org", "Jane Q Public", "subscribed", ⟨"", ""⟩⟩ =
      ⟨"1", "Jane", "Public", "jane@example.org", "subscribed"⟩ ∧
    MarshalJSON ⟨"2", "m@example.org", "Madonna", "subscribed", ⟨"", ""⟩⟩ =
      ⟨"2", "Madonna", "", "m@example.org", "subscribed"⟩ := by
  decide

end Importer
